import Mathlib

/-!
# Verification of the bind-pdf foliation pipeline

A shallow embedding, in Lean 4, of the core of the `py-pmo-deploy`
repository: the foliation scoring function (`compare_foliation`), digit
normalization (`_normalize_to_digits`), region cropping and preprocessing
(`_crop_with_pad`, `_preprocess_crop`), the digit-OCR cascade
(`_apply_digits_engines` and helpers), detection construction
(`predict_array`'s rounding of backend confidences) and the per-run
aggregation performed by the `/process-pdf` endpoint (`process_pdf`).

Numbers that Python represents as floats are embedded as exact rationals
(`ℚ`); Python's `round` (banker's rounding) and `int` (truncation toward
zero) are modelled explicitly.  External collaborators (the YOLO backends,
the OCR engines, PDF rasterization) are abstracted as oracles: the
embedding covers exactly the arithmetic and control flow of the repository
code.
-/

namespace BindPdf

/-! ## Python numeric primitives -/

/-- Round-half-to-even on rationals: the rounding mode of Python's
built-in `round` applied to a value with a `.5` fractional part. -/
def roundHalfEven (q : ℚ) : ℤ :=
  let f : ℤ := ⌊q⌋
  let r : ℚ := q - f
  if r < 1 / 2 then f
  else if 1 / 2 < r then f + 1
  else if f % 2 = 0 then f else f + 1

/-- Python's `round(q, nd)`: scale by `10 ^ nd`, round half to even,
scale back. -/
def pyRound (q : ℚ) (nd : ℕ) : ℚ :=
  (roundHalfEven (q * (10 : ℚ) ^ nd) : ℚ) / (10 : ℚ) ^ nd

/-- Python's `int(q)` on a real number: truncation toward zero. -/
def pyIntTrunc (q : ℚ) : ℤ :=
  if 0 ≤ q then ⌊q⌋ else -⌊-q⌋

/-! ## Python `int(str)` parsing

`compare_foliation` runs `int(ocr_digits)` inside a `try`/`except
ValueError`.  We model the accepted grammar of Python's `int` on ASCII
strings: surrounding whitespace is stripped, an optional single sign is
allowed, and the body must be a nonempty digit run in which single
underscores may appear between digits. -/

/-- Whitespace characters stripped by Python's `int` parser. -/
def isPyWs (c : Char) : Bool :=
  c == ' ' || c == '\t' || c == '\n' || c == '\r' || c == '\x0b' || c == '\x0c'

/-- Strip leading and trailing whitespace from a character list. -/
def stripWs (cs : List Char) : List Char :=
  ((cs.dropWhile isPyWs).reverse.dropWhile isPyWs).reverse

/-- Value of an ASCII digit character. -/
def digitVal (c : Char) : ℕ := c.toNat - 48

/-- After an initial digit: digits, with single underscores allowed
only between digits. -/
def digitsUnderscoreTail : List Char → Bool
  | [] => true
  | c :: rest =>
    if c = '_' then
      match rest with
      | [] => false
      | d :: rest2 => d.isDigit && digitsUnderscoreTail rest2
    else c.isDigit && digitsUnderscoreTail rest

/-- A valid unsigned integer literal body for Python's `int`. -/
def pyDigitRun : List Char → Bool
  | [] => false
  | c :: rest => c.isDigit && digitsUnderscoreTail rest

/-- Decimal value of a digit run (underscores skipped), with accumulator. -/
def digitsValueAux (a : ℕ) : List Char → ℕ
  | [] => a
  | c :: rest => digitsValueAux (if c = '_' then a else 10 * a + digitVal c) rest

/-- Decimal value of a digit run. -/
def digitsValue (cs : List Char) : ℕ := digitsValueAux 0 cs

/-- Model of Python `int(s)` on a string: `some` of the parsed integer,
or `none` when `int` would raise `ValueError`. -/
def pyParseInt (s : String) : Option ℤ :=
  match stripWs s.data with
  | [] => none
  | c :: rest =>
    if c = '+' then
      if pyDigitRun rest then some (digitsValue rest) else none
    else if c = '-' then
      if pyDigitRun rest then some (-(digitsValue rest : ℤ)) else none
    else
      if pyDigitRun (c :: rest) then some ((digitsValue (c :: rest) : ℤ)) else none

/-! ## `compare_foliation` (src/modules/bind_pdf/core.py, lines 112-143) -/

/-- The dictionary returned by `compare_foliation`. -/
structure FoliationCheck where
  isMatch : Bool
  diff : Option ℕ
  confidence : ℚ
  match_percentage : ℤ
deriving DecidableEq

/-- Model of `compare_foliation(ocr_digits, page_num)`: guard on the empty string,
parse the digits with `int`, score the absolute distance to the expected
page number, and round the confidence to 2 decimals. -/
def compareFoliation (ocr_digits : String) (page_num : ℤ) : FoliationCheck :=
  if ocr_digits.isEmpty then ⟨false, none, 0, 0⟩
  else
    match pyParseInt ocr_digits with
    | none => ⟨false, none, 0, 0⟩
    | some detected =>
      let diff : ℕ := (detected - page_num).natAbs
      let conf : ℚ :=
        if diff = 0 then 1
        else if diff = 1 then 0.8
        else if diff ≤ 3 then 0.5
        else max 0 (1 - (diff : ℚ) / 10)
      let pct : ℤ :=
        if diff = 0 then 100
        else if diff = 1 then 80
        else if diff ≤ 3 then 50
        else max 0 (pyIntTrunc (conf * 100))
      ⟨diff == 0, some diff, pyRound conf 2, pct⟩

/-- The confidence computed by `compare_foliation` before its final
`round(confidence, 2)` (used to state the rounding contract). -/
def rawFoliationConf (ocr_digits : String) (page_num : ℤ) : ℚ :=
  if ocr_digits.isEmpty then 0
  else
    match pyParseInt ocr_digits with
    | none => 0
    | some detected =>
      let diff : ℕ := (detected - page_num).natAbs
      if diff = 0 then 1
      else if diff = 1 then 0.8
      else if diff ≤ 3 then 0.5
      else max 0 (1 - (diff : ℚ) / 10)

/-- The scoring table exactly as the specification states it:
`(confidence, match_percentage, match)` as a function of `diff`,
with `floor(confidence * 100)` in the last row. -/
def specFoliationTable (diff : ℕ) : ℚ × ℤ × Bool :=
  if diff = 0 then (1, 100, true)
  else if diff = 1 then (0.8, 80, false)
  else if diff ≤ 3 then (0.5, 50, false)
  else (max 0 (1 - (diff : ℚ) / 10), ⌊(max 0 (1 - (diff : ℚ) / 10)) * 100⌋, false)

/-! ## `_normalize_to_digits` (core.py, lines 289-307) -/

/-- The character-substitution table of `_normalize_to_digits`. -/
def ocrCharTable : List (Char × Char) :=
  [('O', '0'), ('o', '0'), ('D', '0'), ('Q', '0'),
   ('I', '1'), ('l', '1'), ('|', '1'), ('!', '1'),
   ('Z', '2'), ('E', '3'), ('A', '4'),
   ('S', '5'), ('s', '5'), ('G', '6'), ('T', '7'), ('B', '8'),
   ('g', '9'), ('q', '9')]

/-- Model of `m.get(ch, ch)`: substitute a character through the table, or keep it. -/
def ocrCharFix (c : Char) : Char :=
  match ocrCharTable.find? (fun p => p.1 == c) with
  | some p => p.2
  | none => c

/-- Model of `_normalize_to_digits(text)`: empty guard, character substitution,
then `re.sub(r"\D", "", ...)` (strip every non-digit character). -/
def normalizeToDigits (text : String) : String :=
  if text.isEmpty then ""
  else String.mk ((text.data.map ocrCharFix).filter Char.isDigit)

/-! ## Detection construction (`predict_array`, core.py lines 145-199)

The YOLO backends are external; what the repository code adds is the
shaping of each raw backend prediction into a `Detection` dictionary,
rounding the backend confidence to 3 decimals and attaching a fresh
`detection_id`. -/

/-- A raw prediction as delivered by either detection backend. -/
structure RawPred where
  x : ℚ
  y : ℚ
  width : ℚ
  height : ℚ
  conf : ℚ
  cls : String
  clsId : ℤ

/-- The `Detection` dictionary built by `predict_array`. -/
structure Detection where
  x : ℚ
  y : ℚ
  width : ℚ
  height : ℚ
  confidence : ℚ
  className : String
  classId : ℤ
  detectionId : String

/-- The ultralytics branch of `predict_array` (core.py line 169-178):
`confidence: round(float(confs[i]), 3)`. -/
def ultralyticsDetection (p : RawPred) (det_id : String) : Detection :=
  ⟨p.x, p.y, p.width, p.height, pyRound p.conf 3, p.cls, p.clsId, det_id⟩

/-- The Roboflow branch of `predict_array` (core.py line 188-197):
`confidence: round(float(pred["confidence"]), 3)`. -/
def roboflowDetection (p : RawPred) (det_id : String) : Detection :=
  ⟨p.x, p.y, p.width, p.height, pyRound p.conf 3, p.cls, p.clsId, det_id⟩

/-! ## `_crop_with_pad` and `_preprocess_crop` (core.py, lines 219-266)

Crops are modelled at the shape level: the claims concern extents and
emptiness, never pixel values (which come from cv2, an external
collaborator). -/

/-- Model of `_clip(val, lo, hi)` (core.py line 219-221). -/
def clip (v lo hi : ℚ) : ℚ := max lo (min hi v)

/-- A detection box in YOLO center/size form, as read by `_crop_with_pad`. -/
structure Box where
  x : ℚ
  y : ℚ
  width : ℚ
  height : ℚ

/-- The shape of a (possibly empty) crop. -/
structure CropShape where
  rows : ℕ
  cols : ℕ
deriving DecidableEq

/-- Value of `crop.size` of a shape (number of cells). -/
def cropSize (c : CropShape) : ℕ := c.rows * c.cols

/-- Unclamped left edge of the padded box: `cx - bw/2 - bw*pad_ratio`. -/
def padX1 (b : Box) (pad : ℚ) : ℚ := b.x - b.width / 2 - b.width * pad

/-- Unclamped top edge of the padded box. -/
def padY1 (b : Box) (pad : ℚ) : ℚ := b.y - b.height / 2 - b.height * pad

/-- Unclamped right edge of the padded box. -/
def padX2 (b : Box) (pad : ℚ) : ℚ := b.x + b.width / 2 + b.width * pad

/-- Unclamped bottom edge of the padded box. -/
def padY2 (b : Box) (pad : ℚ) : ℚ := b.y + b.height / 2 + b.height * pad

/-- Left edge clamped to `[0, w-1]`. -/
def clampX1 (w : ℕ) (b : Box) (pad : ℚ) : ℚ := clip (padX1 b pad) 0 ((w : ℚ) - 1)

/-- Top edge clamped to `[0, h-1]`. -/
def clampY1 (h : ℕ) (b : Box) (pad : ℚ) : ℚ := clip (padY1 b pad) 0 ((h : ℚ) - 1)

/-- Right edge clamped to `[0, w-1]`. -/
def clampX2 (w : ℕ) (b : Box) (pad : ℚ) : ℚ := clip (padX2 b pad) 0 ((w : ℚ) - 1)

/-- Bottom edge clamped to `[0, h-1]`. -/
def clampY2 (h : ℕ) (b : Box) (pad : ℚ) : ℚ := clip (padY2 b pad) 0 ((h : ℚ) - 1)

/-- Model of `_crop_with_pad(img, box, pad_ratio)`: pad, clamp, round each edge
with Python's `int(round(v))`, and return the `[0:0, 0:0]` empty slice
when the rounded box has no positive extent. -/
def cropWithPad (h w : ℕ) (b : Box) (pad : ℚ) : CropShape :=
  let x1i := roundHalfEven (clampX1 w b pad)
  let y1i := roundHalfEven (clampY1 h b pad)
  let x2i := roundHalfEven (clampX2 w b pad)
  let y2i := roundHalfEven (clampY2 h b pad)
  if x2i ≤ x1i ∨ y2i ≤ y1i then ⟨0, 0⟩
  else ⟨(y2i - y1i).toNat, (x2i - x1i).toNat⟩

/-- Model of `_preprocess_crop(crop, mode)` at the shape level: empty crops pass
through unchanged; otherwise grayscale (same shape), resize by 2x
(light) or 3x (strong), CLAHE, blur/bilateral filter and adaptive
threshold (all shape-preserving), then back to 3 channels. -/
def preprocessCropShape (c : CropShape) (mode : String) : CropShape :=
  if cropSize c = 0 then c
  else
    let scale : ℕ := if mode = "light" then 2 else 3
    ⟨c.rows * scale, c.cols * scale⟩

/-! ## The digit-OCR cascade (core.py, lines 368-418)

`ocr_digits_easyocr` / `ocr_digits_tesseract` call an external OCR
reader on each crop; they are abstracted by an oracle environment.  An
engine whose reader cannot be constructed raises before touching any
detection (`_get_easyocr_reader()` / the `pytesseract` import are the
first statements), which `_apply_digits_engines` records as
`"{engine}: {error}"` and continues. -/

/-- A detection as seen by the cascade: its progressively mutated
`ocr_digits` / `ocr_digits_engine` dictionary entries (`none` models an
absent key). -/
structure OcrDet where
  detId : ℕ
  ocrDigits : Option String
  digitsEngine : Option String
deriving DecidableEq

/-- Python's `not p.get("ocr_digits")`: true when the key is absent or
holds the empty string. -/
def hasEmptyDigits (p : OcrDet) : Bool := (p.ocrDigits.getD "").isEmpty

/-- The first loop of `_apply_digits_engines`: give every detection an
`ocr_digits` key, defaulting to `""`. -/
def setMissingDigits (preds : List OcrDet) : List OcrDet :=
  preds.map (fun p => if p.ocrDigits.isNone then { p with ocrDigits := some "" } else p)

/-- Value of `_DEFAULT_ENGINE_ORDER` (also the key set of `_DIGITS_ENGINE_FUNCS`). -/
def digitsEngineNames : List String := ["easyocr", "tesseract"]

/-- Python's `str.lower()` on ASCII strings, character by character. -/
def pyLower (s : String) : String := String.mk (s.data.map Char.toLower)

/-- Model of `_get_engine_order(preferred)` (core.py lines 375-386). -/
def getEngineOrder (preferred : String) : List String :=
  let pref := pyLower (if preferred = "" then "auto" else preferred)
  if pref = "auto" then digitsEngineNames
  else if pref ∉ digitsEngineNames then digitsEngineNames
  else pref :: digitsEngineNames.filter (· ≠ pref)

/-- Oracle for the external OCR engines: whether an engine's reader can
be constructed, the digit string it reads for a given detection, and the
text of the exception it raises when unavailable. -/
structure EngineEnv where
  avail : String → Bool
  output : String → ℕ → String
  errMsg : String → String

/-- One engine function run over the sub-list of detections whose ids
are in `ids`: it writes `ocr_digits` for each of them and records the
engine name when the digits are nonempty. -/
def runEngineOn (env : EngineEnv) (e : String) (ids : List ℕ) (preds : List OcrDet) :
    List OcrDet :=
  preds.map (fun p =>
    if p.detId ∈ ids then
      let d := env.output e p.detId
      { p with ocrDigits := some d,
               digitsEngine := if d.isEmpty then p.digitsEngine else some e }
    else p)

/-- The engine loop of `_apply_digits_engines`: for each engine in
order, recompute the pending sub-list, stop when it is empty, skip
unknown engine names, record an error (without mutating any detection)
when the engine raises.  Besides the final detections and error list it
returns the invocation trace: which engine was called with which
detection ids. -/
def cascadeStep (env : EngineEnv) :
    List String → List OcrDet → List OcrDet × List String × List (String × List ℕ)
  | [], preds => (preds, [], [])
  | e :: rest, preds =>
    let pending := preds.filter hasEmptyDigits
    if pending.isEmpty then (preds, [], [])
    else if e ∈ digitsEngineNames then
      if env.avail e then
        let preds2 := runEngineOn env e (pending.map (·.detId)) preds
        let out := cascadeStep env rest preds2
        (out.1, out.2.1, (e, pending.map (·.detId)) :: out.2.2)
      else
        let out := cascadeStep env rest preds
        (out.1, (e ++ ": " ++ env.errMsg e) :: out.2.1,
         (e, pending.map (·.detId)) :: out.2.2)
    else
      cascadeStep env rest preds

/-- Model of `_apply_digits_engines(img, predictions, pad_ratio, preprocess,
preferred_engine)`: default the digit fields, then run the cascade in
the order chosen by `_get_engine_order`. -/
def applyDigitsEngines (env : EngineEnv) (preferred : String) (preds : List OcrDet) :
    List OcrDet × List String × List (String × List ℕ) :=
  cascadeStep env (getEngineOrder preferred) (setMissingDigits preds)

/-- Replay one trace entry: the detections an available engine mutated
(an unavailable engine raised before mutating anything). -/
def stepTrace (env : EngineEnv) (preds : List OcrDet) (entry : String × List ℕ) :
    List OcrDet :=
  if env.avail entry.1 then runEngineOn env entry.1 entry.2 preds else preds

/-- A trace is faithful to the work-narrowing contract when every entry
was invoked with exactly the detections that still lacked nonempty
digits after the previous entries ran. -/
def traceFaithful (env : EngineEnv) : List OcrDet → List (String × List ℕ) → Prop
  | _, [] => True
  | preds, entry :: rest =>
    entry.2 = (preds.filter hasEmptyDigits).map (·.detId) ∧
    traceFaithful env (stepTrace env preds entry) rest

/-! ## The `/process-pdf` run (api.py, lines 260-385)

The per-page body (detection, confidence gate, OCR, foliation) either
produces a prediction list or raises; the `try`/`except` at lines
342-348 converts either outcome into a page entry.  The summary block at
lines 350-366 then reduces all page entries. -/

/-- A detection as it appears in a page result: its (backend-rounded)
confidence and its optional `foliation_check`. -/
structure PredOut where
  confidence : ℚ
  foliation : Option FoliationCheck

/-- One entry of the `results` list. -/
structure PageResult where
  page_number : ℤ
  predictions : List PredOut
  error : Option String

/-- The `summary` object of the JSON response. -/
structure RunSummary where
  total_pages : ℤ
  total_detections : ℤ
  pages_with_detections : ℤ
  exact_matches : ℤ
  pages_without_match : ℤ
  average_confidence : ℚ

/-- The summary block of `process_pdf` (api.py lines 350-366 and
375-385): counts over `results`, `pages_without_match = len(pages) -
exact_matches`, and the average of `p.get("confidence", 0)` over every
prediction of every page, rounded to 3 decimals. -/
def summarize (numPages : ℕ) (results : List PageResult) : RunSummary :=
  let allPreds := (results.map (·.predictions)).flatten
  let exact_matches : ℤ :=
    (allPreds.filter (fun p => (p.foliation.map (·.isMatch)).getD false)).length
  let all_confidences : List ℚ := allPreds.map (·.confidence)
  let average : ℚ :=
    if all_confidences.length = 0 then 0
    else all_confidences.sum / (all_confidences.length : ℚ)
  { total_pages := (numPages : ℤ)
    total_detections := ((results.map (fun r => r.predictions.length)).sum : ℤ)
    pages_with_detections :=
      ((results.filter (fun r => !r.predictions.isEmpty)).length : ℤ)
    exact_matches := exact_matches
    pages_without_match := (numPages : ℤ) - exact_matches
    average_confidence := pyRound average 3 }

/-- The arithmetic mean the specification describes for
`average_confidence`: over exactly the detections that carry a
`FoliationCheck` (0.0 when no such detection exists). -/
def specAverageConfidence (results : List PageResult) : ℚ :=
  let dets := ((results.map (·.predictions)).flatten).filter (fun p => p.foliation.isSome)
  if dets.length = 0 then 0
  else (dets.map (·.confidence)).sum / (dets.length : ℚ)

/-- The detection-level count of exact matches
(`foliation_check.match == true`), as computed at api.py lines 353-357. -/
def detMatchCount (results : List PageResult) : ℤ :=
  ((((results.map (·.predictions)).flatten)).filter
    (fun p => (p.foliation.map (·.isMatch)).getD false)).length

/-- The un-rounded average that `round(average_confidence, 3)` is
applied to at api.py line 383. -/
def rawAverageConfidence (results : List PageResult) : ℚ :=
  let all_confidences : List ℚ := ((results.map (·.predictions)).flatten).map (·.confidence)
  if all_confidences.length = 0 then 0
  else all_confidences.sum / (all_confidences.length : ℚ)

/-- The `try`/`except` around one page (api.py lines 263-348): a page
body that raises becomes a page entry with an `error` field and an empty
prediction list. -/
def processPage : ℤ × Except String (List PredOut) → PageResult
  | (pn, Except.ok preds) => ⟨pn, preds, none⟩
  | (pn, Except.error e) => ⟨pn, [], some e⟩

/-- The value a completed run responds with. -/
structure RunOutput where
  pages : List PageResult
  summary : RunSummary

/-- The page loop plus summary of `process_pdf`: every page outcome
becomes exactly one page entry, then the summary is computed over all of
them. -/
def processRun (outcomes : List (ℤ × Except String (List PredOut))) : RunOutput :=
  let results := outcomes.map processPage
  ⟨results, summarize outcomes.length results⟩

/-- Model of `process_pdf` after parameter validation: a rasterization
(`pdf_to_images`) failure aborts the run with an error (api.py lines
253-258); otherwise every page is processed and a summary is returned. -/
def processPdf (ingest : Except String (List (ℤ × Except String (List PredOut)))) :
    Except String RunOutput :=
  match ingest with
  | Except.error e => Except.error e
  | Except.ok outcomes => Except.ok (processRun outcomes)

/-! ## Abbreviations for the scoring branches, and concrete inputs used
by counterexamples and witnesses -/

/-- The `confidence` chosen by `compare_foliation` as a function of the
diff (before the final rounding). -/
def confOfDiff (d : ℕ) : ℚ :=
  if d = 0 then 1
  else if d = 1 then 0.8
  else if d ≤ 3 then 0.5
  else max 0 (1 - (d : ℚ) / 10)

/-- The `match_percentage` chosen by `compare_foliation` as a function
of the diff. -/
def pctOfDiff (d : ℕ) : ℤ :=
  if d = 0 then 100
  else if d = 1 then 80
  else if d ≤ 3 then 50
  else max 0 (pyIntTrunc (confOfDiff d * 100))

/-- The check produced for an exact foliation match. -/
def fcExact : FoliationCheck := ⟨true, some 0, 1, 100⟩

/-- A one-page result with two detections: one trusted detection that
carries a `FoliationCheck`, one low-confidence detection that carries
none. -/
def c2Page : PageResult :=
  ⟨1, [⟨0.9, some (compareFoliation "1" 1)⟩, ⟨0.7, none⟩], none⟩

/-- A one-page result whose page carries two detections that both read
the correct folio `1`. -/
def c9Page : PageResult :=
  ⟨1, [⟨0.9, some (compareFoliation "1" 1)⟩, ⟨0.95, some (compareFoliation "1" 1)⟩], none⟩

/-- A raw backend prediction whose confidence has three significant
decimals. -/
def rawC3 : RawPred := ⟨10, 20, 30, 40, 0.567, "folio", 0⟩

/-- A page of the specification's 3-page example: one trusted detection
whose crop OCRs to `digits`. -/
def examplePage (pn : ℤ) (digits : String) (detConf : ℚ) : PageResult :=
  ⟨pn, [⟨detConf, some (compareFoliation digits pn)⟩], none⟩

/-- The 3-page example run: the three pages OCR to "1", "2", "5", and
the detector reported confidence 0.9 for each region. -/
def exampleRun : List PageResult :=
  [examplePage 1 "1" 0.9, examplePage 2 "2" 0.9, examplePage 3 "5" 0.9]

/-- An engine environment in which every engine is available and reads
the digit string "7" for every detection. -/
def env0 : EngineEnv := ⟨fun _ => true, fun _ _ => "7", fun _ => "boom"⟩

/-- A single detection, with no OCR fields yet. -/
def preds0 : List OcrDet := [⟨0, none, none⟩]

/-- A detection box lying entirely outside a 50x50 image. -/
def box0 : Box := ⟨-100, -100, 10, 10⟩

/-! ## Lemmas about the numeric primitives -/

theorem roundHalfEven_intCast (k : ℤ) : roundHalfEven (k : ℚ) = k := by
  unfold roundHalfEven
  norm_num

theorem le_roundHalfEven (q : ℚ) : ⌊q⌋ ≤ roundHalfEven q := by
  unfold roundHalfEven
  dsimp only
  split_ifs <;> omega

theorem roundHalfEven_le (q : ℚ) : roundHalfEven q ≤ ⌊q⌋ + 1 := by
  unfold roundHalfEven
  dsimp only
  split_ifs <;> omega

theorem roundHalfEven_mono {a b : ℚ} (h : a ≤ b) : roundHalfEven a ≤ roundHalfEven b := by
  have hf : ⌊a⌋ ≤ ⌊b⌋ := Int.floor_le_floor h
  rcases eq_or_lt_of_le hf with heq | hlt
  · have hr : a - (⌊a⌋ : ℚ) ≤ b - (⌊a⌋ : ℚ) := by linarith
    unfold roundHalfEven
    dsimp only
    rw [← heq]
    split_ifs <;> first | omega | (exfalso; linarith)
  · calc roundHalfEven a ≤ ⌊a⌋ + 1 := roundHalfEven_le a
    _ ≤ ⌊b⌋ := by omega
    _ ≤ roundHalfEven b := le_roundHalfEven b

theorem pyRound_eq_self {q : ℚ} {nd : ℕ} (k : ℤ) (h : q * (10 : ℚ) ^ nd = (k : ℚ)) :
    pyRound q nd = q := by
  unfold pyRound
  rw [h, roundHalfEven_intCast, ← h]
  have hpow : ((10 : ℚ) ^ nd) ≠ 0 := by positivity
  field_simp

theorem pyIntTrunc_of_nonneg {q : ℚ} (h : 0 ≤ q) : pyIntTrunc q = ⌊q⌋ :=
  if_pos h

/-! ## Lemmas about `pyParseInt` and decimal representations -/

theorem digitsValueAux_nil (a : ℕ) : digitsValueAux a [] = a := rfl

theorem digitsValueAux_cons (a : ℕ) (c : Char) (l : List Char) :
    digitsValueAux a (c :: l) =
      digitsValueAux (if c = '_' then a else 10 * a + digitVal c) l := rfl

theorem digitsValueAux_append (a : ℕ) (l1 l2 : List Char) :
    digitsValueAux a (l1 ++ l2) = digitsValueAux (digitsValueAux a l1) l2 := by
  induction l1 generalizing a with
  | nil => rfl
  | cons c rest ih =>
    rw [List.cons_append, digitsValueAux_cons, digitsValueAux_cons, ih]

theorem digitsValueAux_zero_replicate (k : ℕ) :
    digitsValueAux 0 (List.replicate k '0') = 0 := by
  induction k with
  | zero => rfl
  | succ k ih =>
    rw [List.replicate_succ, digitsValueAux_cons]
    simpa using ih

theorem toDigitsCore_succ (b f n : ℕ) (ds : List Char) :
    Nat.toDigitsCore b (f + 1) n ds =
      if n / b = 0 then Nat.digitChar (n % b) :: ds
      else Nat.toDigitsCore b f (n / b) (Nat.digitChar (n % b) :: ds) := rfl

theorem toDigitsCore_acc (b : ℕ) :
    ∀ (fuel n : ℕ) (ds : List Char),
      Nat.toDigitsCore b fuel n ds = Nat.toDigitsCore b fuel n [] ++ ds := by
  intro fuel
  induction fuel with
  | zero => intro n ds; rfl
  | succ f ih =>
    intro n ds
    rw [toDigitsCore_succ, toDigitsCore_succ]
    by_cases h : n / b = 0
    · rw [if_pos h, if_pos h]
      rfl
    · rw [if_neg h, if_neg h, ih (n / b) (Nat.digitChar (n % b) :: ds),
        ih (n / b) [Nat.digitChar (n % b)], List.append_assoc]
      rfl

theorem digitVal_digitChar {m : ℕ} (h : m < 10) : digitVal (Nat.digitChar m) = m := by
  interval_cases m <;> rfl

theorem digitChar_isDigit {m : ℕ} (h : m < 10) : (Nat.digitChar m).isDigit = true := by
  interval_cases m <;> rfl

theorem toDigitsCore_val :
    ∀ fuel n : ℕ, n < fuel → digitsValueAux 0 (Nat.toDigitsCore 10 fuel n []) = n := by
  intro fuel
  induction fuel with
  | zero => intro n h; exact absurd h (Nat.not_lt_zero n)
  | succ f ih =>
    intro n h
    have hmod : n % 10 < 10 := Nat.mod_lt n (by norm_num)
    have hne : Nat.digitChar (n % 10) ≠ '_' := by
      intro he
      have := digitChar_isDigit hmod
      rw [he] at this
      exact absurd this (by decide)
    rw [toDigitsCore_succ]
    by_cases h0 : n / 10 = 0
    · rw [if_pos h0, digitsValueAux_cons, if_neg hne, digitVal_digitChar hmod]
      have : n < 10 := by omega
      simp [digitsValueAux_nil]
      omega
    · rw [if_neg h0, toDigitsCore_acc, digitsValueAux_append,
        ih (n / 10) (by omega), digitsValueAux_cons, if_neg hne,
        digitVal_digitChar hmod, digitsValueAux_nil]
      omega

theorem toDigitsCore_digits :
    ∀ fuel n : ℕ, ∀ c ∈ Nat.toDigitsCore 10 fuel n [], c.isDigit = true := by
  intro fuel
  induction fuel with
  | zero => intro n c hc; exact absurd hc (List.not_mem_nil c)
  | succ f ih =>
    intro n c hc
    have hmod : n % 10 < 10 := Nat.mod_lt n (by norm_num)
    rw [toDigitsCore_succ] at hc
    by_cases h0 : n / 10 = 0
    · rw [if_pos h0] at hc
      rcases List.mem_singleton.mp hc with rfl
      exact digitChar_isDigit hmod
    · rw [if_neg h0, toDigitsCore_acc] at hc
      rcases List.mem_append.mp hc with h1 | h1
      · exact ih (n / 10) c h1
      · rcases List.mem_singleton.mp h1 with rfl
        exact digitChar_isDigit hmod

theorem toDigitsCore_ne_nil (f n : ℕ) : Nat.toDigitsCore 10 (f + 1) n [] ≠ [] := by
  rw [toDigitsCore_succ]
  by_cases h0 : n / 10 = 0
  · rw [if_pos h0]; simp
  · rw [if_neg h0, toDigitsCore_acc]; simp

theorem repr_data (n : ℕ) : (Nat.repr n).data = Nat.toDigitsCore 10 (n + 1) n [] := rfl

theorem repr_digits (n : ℕ) : ∀ c ∈ (Nat.repr n).data, c.isDigit = true := by
  rw [repr_data]
  exact toDigitsCore_digits (n + 1) n

theorem repr_val (n : ℕ) : digitsValueAux 0 (Nat.repr n).data = n := by
  rw [repr_data]
  exact toDigitsCore_val (n + 1) n (Nat.lt_succ_self n)

theorem repr_data_ne_nil (n : ℕ) : (Nat.repr n).data ≠ [] := by
  rw [repr_data]
  exact toDigitsCore_ne_nil n n

theorem isPyWs_eq_false_of_digit {c : Char} (h : c.isDigit = true) : isPyWs c = false := by
  rcases hw : isPyWs c with _ | _
  · rfl
  · exfalso
    simp only [isPyWs, Bool.or_eq_true, beq_iff_eq] at hw
    rcases hw with ((((rfl | rfl) | rfl) | rfl) | rfl) | rfl <;> exact absurd h (by decide)

theorem dropWhile_eq_self_of_head {p : Char → Bool} {l : List Char}
    (h : ∀ c ∈ l, p c = false) : l.dropWhile p = l := by
  cases l with
  | nil => rfl
  | cons c rest => rw [List.dropWhile_cons, h c (List.mem_cons_self c rest)]; rfl

theorem stripWs_eq_self {l : List Char} (h : ∀ c ∈ l, isPyWs c = false) :
    stripWs l = l := by
  unfold stripWs
  rw [dropWhile_eq_self_of_head h,
    dropWhile_eq_self_of_head (fun c hc => h c (List.mem_reverse.mp hc)),
    List.reverse_reverse]

theorem digitsUnderscoreTail_of_digits :
    ∀ l : List Char, (∀ c ∈ l, c.isDigit = true) → digitsUnderscoreTail l = true := by
  intro l
  induction l with
  | nil => intro _; rfl
  | cons c rest ih =>
    intro h
    have hc : c.isDigit = true := h c (List.mem_cons_self c rest)
    have hcu : c ≠ '_' := by
      intro he; rw [he] at hc; exact absurd hc (by decide)
    unfold digitsUnderscoreTail
    rw [if_neg hcu, hc, Bool.true_and]
    exact ih (fun d hd => h d (List.mem_cons_of_mem c hd))

theorem pyDigitRun_of_digits {l : List Char} (hne : l ≠ [])
    (h : ∀ c ∈ l, c.isDigit = true) : pyDigitRun l = true := by
  cases l with
  | nil => exact absurd rfl hne
  | cons c rest =>
    unfold pyDigitRun
    dsimp only
    rw [h c (List.mem_cons_self c rest), Bool.true_and]
    exact digitsUnderscoreTail_of_digits rest (fun d hd => h d (List.mem_cons_of_mem c hd))

theorem pyParseInt_of_digits {s : String} (hne : s.data ≠ [])
    (hd : ∀ c ∈ s.data, c.isDigit = true) :
    pyParseInt s = some ((digitsValueAux 0 s.data : ℕ) : ℤ) := by
  unfold pyParseInt
  rw [stripWs_eq_self (fun c hc => isPyWs_eq_false_of_digit (hd c hc))]
  rcases hL : s.data with _ | ⟨c, rest⟩
  · exact absurd hL hne
  · have hc : c.isDigit = true := hd c (by rw [hL]; exact List.mem_cons_self c rest)
    have hplus : c ≠ '+' := by intro he; rw [he] at hc; exact absurd hc (by decide)
    have hminus : c ≠ '-' := by intro he; rw [he] at hc; exact absurd hc (by decide)
    dsimp only
    rw [if_neg hplus, if_neg hminus,
      if_pos (pyDigitRun_of_digits (List.cons_ne_nil c rest)
        (fun d hd2 => hd d (by rw [hL]; exact hd2)))]
    rfl

/-! ## Characterizing `compareFoliation` -/

theorem confOfDiff_nonneg (d : ℕ) : 0 ≤ confOfDiff d := by
  unfold confOfDiff
  split_ifs <;> norm_num

theorem confOfDiff_round (d : ℕ) : pyRound (confOfDiff d) 2 = confOfDiff d := by
  unfold confOfDiff
  split_ifs
  · exact pyRound_eq_self 100 (by norm_num)
  · exact pyRound_eq_self 80 (by norm_num)
  · exact pyRound_eq_self 50 (by norm_num)
  · refine pyRound_eq_self (max 0 (100 - 10 * (d : ℤ))) ?_
    rw [max_mul_of_nonneg _ _ (by norm_num : (0 : ℚ) ≤ (10 : ℚ) ^ 2)]
    push_cast
    ring_nf

theorem compareFoliation_empty (n : ℤ) : compareFoliation "" n = ⟨false, none, 0, 0⟩ :=
  rfl

theorem isEmpty_false_of_parse {s : String} {v : ℤ} (h : pyParseInt s = some v) :
    s.isEmpty = false := by
  rcases hE : s.isEmpty with _ | _
  · rfl
  · rw [String.isEmpty_iff] at hE
    subst hE
    rw [show pyParseInt "" = none from rfl] at h
    exact Option.noConfusion h

theorem compareFoliation_nonparse {s : String} (n : ℤ) (h : pyParseInt s = none) :
    compareFoliation s n = ⟨false, none, 0, 0⟩ := by
  unfold compareFoliation
  rcases hE : s.isEmpty with _ | _
  · rw [if_neg Bool.false_ne_true, h]
  · rw [if_pos rfl]

theorem compareFoliation_parse {s : String} (n v : ℤ) (h : pyParseInt s = some v) :
    compareFoliation s n =
      ⟨(v - n).natAbs == 0, some (v - n).natAbs,
        confOfDiff ((v - n).natAbs), pctOfDiff ((v - n).natAbs)⟩ := by
  unfold compareFoliation
  rw [if_neg (by rw [isEmpty_false_of_parse h]; exact Bool.false_ne_true), h]
  rw [← confOfDiff_round ((v - n).natAbs)]
  rfl

theorem rawFoliationConf_parse {s : String} (n v : ℤ) (h : pyParseInt s = some v) :
    rawFoliationConf s n = confOfDiff ((v - n).natAbs) := by
  unfold rawFoliationConf
  rw [if_neg (by rw [isEmpty_false_of_parse h]; exact Bool.false_ne_true), h]
  rfl

theorem rawFoliationConf_nonparse {s : String} (n : ℤ) (h : pyParseInt s = none) :
    rawFoliationConf s n = 0 := by
  unfold rawFoliationConf
  rcases hE : s.isEmpty with _ | _
  · rw [if_neg Bool.false_ne_true, h]
  · rw [if_pos rfl]

theorem compareFoliation_one : compareFoliation "1" 1 = fcExact := by
  rw [compareFoliation_parse 1 1 (by decide)]
  rfl

theorem specTable_conf (d : ℕ) : (specFoliationTable d).1 = confOfDiff d := by
  unfold specFoliationTable confOfDiff
  split_ifs <;> rfl

theorem specTable_isMatch (d : ℕ) : (specFoliationTable d).2.2 = (d == 0) := by
  unfold specFoliationTable
  split_ifs with h1 h2 h3
  · rw [h1]; rfl
  · rw [beq_eq_false_iff_ne.mpr h1]
  · rw [beq_eq_false_iff_ne.mpr h1]
  · rw [beq_eq_false_iff_ne.mpr h1]

theorem specTable_pct (d : ℕ) : (specFoliationTable d).2.1 = pctOfDiff d := by
  unfold specFoliationTable pctOfDiff
  split_ifs with h1 h2 h3
  · rfl
  · rfl
  · rfl
  · have h100 : (0 : ℚ) ≤ max 0 (1 - (d : ℚ) / 10) * 100 := by positivity
    rw [show confOfDiff d = max 0 (1 - (d : ℚ) / 10) by
      unfold confOfDiff; rw [if_neg h1, if_neg h2, if_neg h3]]
    rw [pyIntTrunc_of_nonneg h100, max_eq_right (Int.floor_nonneg.mpr h100)]

theorem confOfDiff_ge_half_of_le3 {d : ℕ} (h : d ≤ 3) : 1 / 2 ≤ confOfDiff d := by
  unfold confOfDiff
  split_ifs <;> norm_num

theorem confOfDiff_big {d : ℕ} (h : 4 ≤ d) : confOfDiff d = max 0 (1 - (d : ℚ) / 10) := by
  unfold confOfDiff
  rw [if_neg (by omega), if_neg (by omega), if_neg (by omega)]

theorem confOfDiff_le_half_of_ge5 {d : ℕ} (h : 5 ≤ d) : confOfDiff d ≤ 1 / 2 := by
  rw [confOfDiff_big (by omega)]
  have hc : (5 : ℚ) ≤ (d : ℚ) := by exact_mod_cast h
  apply max_le <;> linarith

theorem confOfDiff_anti_big {d1 d2 : ℕ} (h4 : 4 ≤ d1) (h : d1 ≤ d2) :
    confOfDiff d2 ≤ confOfDiff d1 := by
  rw [confOfDiff_big h4, confOfDiff_big (by omega)]
  have hc : (d1 : ℚ) ≤ (d2 : ℚ) := by exact_mod_cast h
  exact max_le_max (le_refl 0) (by linarith)

theorem confOfDiff_anti {d1 d2 : ℕ} (hlt : d1 < d2) (hnot : ¬(d2 = 4 ∧ 2 ≤ d1)) :
    confOfDiff d2 ≤ confOfDiff d1 := by
  by_cases hd1 : d1 ≤ 3
  · by_cases hd2 : d2 ≤ 3
    · interval_cases d1 <;> interval_cases d2 <;>
        first | omega | norm_num [confOfDiff]
    · push_neg at hd2
      by_cases hd24 : d2 = 4
      · subst hd24
        have hd1' : d1 ≤ 1 := by omega
        rw [confOfDiff_big (le_refl 4)]
        interval_cases d1 <;> norm_num [confOfDiff, max_le_iff]
      · calc confOfDiff d2 ≤ 1 / 2 := confOfDiff_le_half_of_ge5 (by omega)
        _ ≤ confOfDiff d1 := confOfDiff_ge_half_of_le3 hd1
  · exact confOfDiff_anti_big (by omega) (by omega)

/-! ## Claims C4, C10, C1 -/

/-- C4: `compare(ocr_digits, n)` returns
`{match: false, diff: absent, confidence: 0.0, match_percentage: 0}` for
every empty or non-integer-parsable `ocr_digits`; for every parsable
input it sets `diff = |parsed - n|` and follows the scoring table
(diff 0 → (1.0, 100, match true); 1 → (0.8, 80, false); 2-3 →
(0.5, 50, false); >3 → (max(0, 1 - diff/10), floor(confidence*100),
false)); in particular for all n ≥ 0, `compare(str(n), n)` is a match
with confidence 1.0. -/
theorem C4_compare_contract :
    (∀ (s : String) (n : ℤ), pyParseInt s = none →
      compareFoliation s n = ⟨false, none, 0, 0⟩) ∧
    (∀ (s : String) (n v : ℤ), pyParseInt s = some v →
      compareFoliation s n =
        ⟨(specFoliationTable ((v - n).natAbs)).2.2, some ((v - n).natAbs),
          (specFoliationTable ((v - n).natAbs)).1,
          (specFoliationTable ((v - n).natAbs)).2.1⟩) ∧
    (∀ n : ℕ, (compareFoliation (Nat.repr n) (n : ℤ)).isMatch = true ∧
      (compareFoliation (Nat.repr n) (n : ℤ)).confidence = 1) := by
  refine ⟨fun s n h => compareFoliation_nonparse n h, ?_, ?_⟩
  · intro s n v h
    rw [compareFoliation_parse n v h, specTable_conf, specTable_isMatch, specTable_pct]
  · intro n
    have hval : pyParseInt (Nat.repr n) = some ((n : ℕ) : ℤ) := by
      rw [pyParseInt_of_digits (repr_data_ne_nil n) (repr_digits n), repr_val]
    rw [compareFoliation_parse (n : ℤ) (n : ℤ) hval]
    constructor
    · rw [show ((n : ℤ) - (n : ℤ)).natAbs = 0 by simp]
      rfl
    · rw [show ((n : ℤ) - (n : ℤ)).natAbs = 0 by simp]
      rfl

/-- Witness for C4 at concrete inputs: the non-parsable string "abc"
and the parsable string "7" against expected page 5 (diff 2). -/
theorem C4_witness :
    compareFoliation "abc" 5 = ⟨false, none, 0, 0⟩ ∧
    compareFoliation "7" 5 =
      ⟨(specFoliationTable (((7 : ℤ) - 5).natAbs)).2.2, some (((7 : ℤ) - 5).natAbs),
        (specFoliationTable (((7 : ℤ) - 5).natAbs)).1,
        (specFoliationTable (((7 : ℤ) - 5).natAbs)).2.1⟩ ∧
    (compareFoliation (Nat.repr 9) ((9 : ℕ) : ℤ)).isMatch = true :=
  ⟨C4_compare_contract.1 "abc" 5 (by decide),
   C4_compare_contract.2.1 "7" 5 7 (by decide),
   (C4_compare_contract.2.2 9).1⟩

/-- C10: `compare` tolerates leading zeros: for every n ≥ 0 and every
number of leading '0' characters, comparing `"0"*k + str(n)` against
page n yields match true, diff 0, confidence 1.0, match_percentage 100,
because the digit string is parsed as a decimal integer first. -/
theorem C10_leading_zeros :
    ∀ n k : ℕ,
      compareFoliation (String.mk (List.replicate k '0') ++ Nat.repr n) (n : ℤ) =
        ⟨true, some 0, 1, 100⟩ := by
  intro n k
  have hdata : (String.mk (List.replicate k '0') ++ Nat.repr n).data
      = List.replicate k '0' ++ (Nat.repr n).data := String.data_append _ _
  have hne : (String.mk (List.replicate k '0') ++ Nat.repr n).data ≠ [] := by
    rw [hdata]
    intro h
    exact repr_data_ne_nil n (List.append_eq_nil.mp h).2
  have hdig : ∀ c ∈ (String.mk (List.replicate k '0') ++ Nat.repr n).data,
      c.isDigit = true := by
    rw [hdata]
    intro c hc
    rcases List.mem_append.mp hc with h1 | h1
    · rw [List.eq_of_mem_replicate h1]
      rfl
    · exact repr_digits n c h1
  have hval : pyParseInt (String.mk (List.replicate k '0') ++ Nat.repr n)
      = some ((n : ℕ) : ℤ) := by
    rw [pyParseInt_of_digits hne hdig, hdata, digitsValueAux_append,
      digitsValueAux_zero_replicate, repr_val]
  rw [compareFoliation_parse (n : ℤ) (n : ℤ) hval,
    show ((n : ℤ) - (n : ℤ)).natAbs = 0 by simp]
  rfl

/-- Counterexample to C1 as stated: the parsable strings "4" and "5"
against expected page 1 have diffs 3 < 4, yet the confidence at diff 3
(0.5) is strictly below the confidence at diff 4 (0.6). -/
theorem C1_counterexample :
    (compareFoliation "4" 1).diff = some 3 ∧
    (compareFoliation "5" 1).diff = some 4 ∧
    ¬((compareFoliation "5" 1).confidence ≤ (compareFoliation "4" 1).confidence) := by
  rw [compareFoliation_parse 1 4 (by decide), compareFoliation_parse 1 5 (by decide)]
  refine ⟨rfl, rfl, ?_⟩
  rw [show ((4 : ℤ) - 1).natAbs = 3 by decide, show ((5 : ℤ) - 1).natAbs = 4 by decide,
    confOfDiff_big (le_refl 4)]
  norm_num [confOfDiff, max_le_iff]

/-- C1 amended: the confidence of `compare` is non-increasing in the
diff except across the boundary into diff 4, where the decay formula
restarts at 0.6 above the 0.5 plateau of diffs 2-3: for parsable
strings with diffs d1 < d2, confidence(d2) ≤ confidence(d1) holds
whenever not (d2 = 4 and d1 ≥ 2). -/
theorem C1_amended :
    ∀ (s1 s2 : String) (n1 n2 v1 v2 : ℤ),
      pyParseInt s1 = some v1 → pyParseInt s2 = some v2 →
      (v1 - n1).natAbs < (v2 - n2).natAbs →
      ¬((v2 - n2).natAbs = 4 ∧ 2 ≤ (v1 - n1).natAbs) →
      (compareFoliation s2 n2).confidence ≤ (compareFoliation s1 n1).confidence := by
  intro s1 s2 n1 n2 v1 v2 h1 h2 hlt hnot
  rw [compareFoliation_parse n1 v1 h1, compareFoliation_parse n2 v2 h2]
  exact confOfDiff_anti hlt hnot

/-- Witness for C1 amended at concrete inputs: "1" (diff 0) and "3"
(diff 2) against expected page 1. -/
theorem C1_witness :
    (compareFoliation "3" 1).confidence ≤ (compareFoliation "1" 1).confidence :=
  C1_amended "1" "3" 1 1 1 3 (by decide) (by decide) (by decide) (by decide)

/-! ## Claim C5: the digit normalizer -/

theorem ocrCharFix_of_digit {c : Char} (h : c.isDigit = true) : ocrCharFix c = c := by
  unfold ocrCharFix
  rw [show ocrCharTable.find? (fun p => p.1 == c) = none from ?_]
  · apply List.find?_eq_none.mpr
    intro p hp
    simp only [ocrCharTable] at hp
    fin_cases hp <;>
      exact fun hb => absurd h (by rw [← eq_of_beq hb]; decide)

theorem map_ocrCharFix_of_digits {l : List Char} (h : ∀ c ∈ l, c.isDigit = true) :
    l.map ocrCharFix = l := by
  conv_rhs => rw [← List.map_id l]
  exact List.map_congr_left (fun a ha => ocrCharFix_of_digit (h a ha))

theorem normalize_data_digits (s : String) :
    ∀ c ∈ (normalizeToDigits s).data, c.isDigit = true := by
  intro c hc
  unfold normalizeToDigits at hc
  split_ifs at hc with h
  · exact absurd hc (List.not_mem_nil c)
  · exact (List.mem_filter.mp hc).2

/-- C5: `normalize` is a pure total function on all strings mapping the
empty string to the empty string, returns only digit characters, and is
idempotent. -/
theorem C5_normalize :
    normalizeToDigits "" = "" ∧
    (∀ s : String, (normalizeToDigits s).data.all Char.isDigit = true) ∧
    (∀ s : String, normalizeToDigits (normalizeToDigits s) = normalizeToDigits s) := by
  refine ⟨rfl, ?_, ?_⟩
  · intro s
    rw [List.all_eq_true]
    exact normalize_data_digits s
  · intro s
    by_cases h : (normalizeToDigits s).isEmpty = true
    · rw [String.isEmpty_iff] at h
      rw [h]
      rfl
    · conv_lhs => rw [normalizeToDigits]
      rw [if_neg h, map_ocrCharFix_of_digits (normalize_data_digits s),
        List.filter_eq_self.mpr (normalize_data_digits s)]

/-! ## Claim C7: crop clamping and empty-crop pass-through -/

theorem cropWithPad_empty_of_degenerate {h w : ℕ} {b : Box} {pad : ℚ}
    (hdeg : clampX2 w b pad ≤ clampX1 w b pad ∨ clampY2 h b pad ≤ clampY1 h b pad) :
    cropWithPad h w b pad = ⟨0, 0⟩ := by
  have hcond : roundHalfEven (clampX2 w b pad) ≤ roundHalfEven (clampX1 w b pad) ∨
      roundHalfEven (clampY2 h b pad) ≤ roundHalfEven (clampY1 h b pad) := by
    rcases hdeg with h1 | h1
    · exact Or.inl (roundHalfEven_mono h1)
    · exact Or.inr (roundHalfEven_mono h1)
  unfold cropWithPad
  dsimp only
  rw [if_pos hcond]

/-- C7: a padded box whose clamp to the image bounds has zero or
negative extent (in particular a box entirely outside the image) crops
to an explicitly empty crop, and `preprocess` passes an empty crop
through unchanged. -/
theorem C7_crop_safety :
    (∀ (h w : ℕ) (b : Box) (pad : ℚ),
      (clampX2 w b pad ≤ clampX1 w b pad ∨ clampY2 h b pad ≤ clampY1 h b pad) →
      cropWithPad h w b pad = ⟨0, 0⟩) ∧
    (∀ (h w : ℕ) (b : Box) (pad : ℚ),
      0 ≤ b.width → 0 ≤ b.height → 0 ≤ pad →
      (padX2 b pad ≤ 0 ∨ ((w : ℚ) - 1) ≤ padX1 b pad ∨
        padY2 b pad ≤ 0 ∨ ((h : ℚ) - 1) ≤ padY1 b pad) →
      cropWithPad h w b pad = ⟨0, 0⟩) ∧
    (∀ (c : CropShape) (mode : String), cropSize c = 0 → preprocessCropShape c mode = c) := by
  refine ⟨?_, ?_, ?_⟩
  · intro h w b pad hdeg
    exact cropWithPad_empty_of_degenerate hdeg
  · intro h w b pad hw hh hp hout
    have hxle : padX1 b pad ≤ padX2 b pad := by
      unfold padX1 padX2
      have := mul_nonneg hw hp
      linarith
    have hyle : padY1 b pad ≤ padY2 b pad := by
      unfold padY1 padY2
      have := mul_nonneg hh hp
      linarith
    apply cropWithPad_empty_of_degenerate
    rcases hout with hx | hx | hy | hy
    · left
      unfold clampX2 clampX1 clip
      rw [max_eq_left (le_trans (min_le_right _ _) hx)]
      exact le_max_left _ _
    · left
      unfold clampX2 clampX1 clip
      rw [min_eq_left hx, min_eq_left (le_trans hx hxle)]
    · right
      unfold clampY2 clampY1 clip
      rw [max_eq_left (le_trans (min_le_right _ _) hy)]
      exact le_max_left _ _
    · right
      unfold clampY2 clampY1 clip
      rw [min_eq_left hy, min_eq_left (le_trans hy hyle)]
  · intro c mode hc
    unfold preprocessCropShape
    rw [if_pos hc]

/-- Witness for C7 at concrete inputs: a 10x10 box centered at
(-100, -100), entirely outside a 50x50 image, with the default
pad_ratio 0.15; and the empty crop under "strong" preprocessing. -/
theorem C7_witness :
    cropWithPad 50 50 box0 0.15 = ⟨0, 0⟩ ∧
    preprocessCropShape ⟨0, 0⟩ "strong" = ⟨0, 0⟩ :=
  ⟨C7_crop_safety.2.1 50 50 box0 0.15 (by norm_num [box0]) (by norm_num [box0])
      (by norm_num) (Or.inl (by norm_num [padX2, box0])),
    C7_crop_safety.2.2 ⟨0, 0⟩ "strong" rfl⟩

/-! ## Claim C6: the work-narrowing OCR cascade -/

theorem cascade_traceFaithful (env : EngineEnv) :
    ∀ (engines : List String) (preds : List OcrDet),
      traceFaithful env preds (cascadeStep env engines preds).2.2 := by
  intro engines
  induction engines with
  | nil => intro preds; trivial
  | cons e rest ih =>
    intro preds
    unfold cascadeStep
    dsimp only
    by_cases hp : (preds.filter hasEmptyDigits).isEmpty = true
    · rw [if_pos hp]
      trivial
    · rw [if_neg hp]
      by_cases hk : e ∈ digitsEngineNames
      · rw [if_pos hk]
        by_cases ha : env.avail e = true
        · rw [if_pos ha]
          refine ⟨rfl, ?_⟩
          unfold stepTrace
          dsimp only
          rw [if_pos ha]
          exact ih _
        · rw [if_neg ha]
          refine ⟨rfl, ?_⟩
          unfold stepTrace
          dsimp only
          rw [if_neg ha]
          exact ih preds
      · rw [if_neg hk]
        exact ih preds

theorem runEngineOn_no_empty (env : EngineEnv) (e : String) (preds : List OcrDet)
    (hout : ∀ i, (env.output e i).isEmpty = false) :
    (runEngineOn env e ((preds.filter hasEmptyDigits).map (·.detId)) preds).filter
        hasEmptyDigits = [] := by
  apply List.filter_eq_nil_iff.mpr
  intro p hp
  rcases List.mem_map.mp hp with ⟨q, hq, rfl⟩
  dsimp only
  by_cases hid : q.detId ∈ (preds.filter hasEmptyDigits).map (·.detId)
  · rw [if_pos hid]
    simp [hasEmptyDigits, hout q.detId]
  · rw [if_neg hid]
    intro hq2
    exact hid (List.mem_map.mpr ⟨q, List.mem_filter.mpr ⟨hq, hq2⟩, rfl⟩)

theorem cascadeStep_nil_of_no_pending (env : EngineEnv) (engines : List String)
    {preds : List OcrDet} (h : preds.filter hasEmptyDigits = []) :
    cascadeStep env engines preds = (preds, [], []) := by
  cases engines with
  | nil => rfl
  | cons e rest =>
    unfold cascadeStep
    dsimp only
    rw [h]
    rfl

theorem cascade_first_settles (env : EngineEnv) (e1 : String) (rest : List String)
    (preds : List OcrDet) (hk : e1 ∈ digitsEngineNames) (ha : env.avail e1 = true)
    (hout : ∀ i, (env.output e1 i).isEmpty = false) :
    ∀ entry ∈ (cascadeStep env (e1 :: rest) preds).2.2, entry.1 = e1 := by
  intro entry hentry
  unfold cascadeStep at hentry
  dsimp only at hentry
  by_cases hp : (preds.filter hasEmptyDigits).isEmpty = true
  · rw [if_pos hp] at hentry
    exact absurd hentry (List.not_mem_nil entry)
  · rw [if_neg hp, if_pos hk, if_pos ha,
      cascadeStep_nil_of_no_pending env rest (runEngineOn_no_empty env e1 preds hout)]
      at hentry
    rcases List.mem_singleton.mp hentry with rfl
    rfl

/-- C6: the OCR cascade is work-narrowing: every engine invocation in a
run of `_apply_digits_engines` receives exactly the detections whose
`ocr_digits` is still empty after the previous invocations ran, and when
the first engine of the order yields nonempty digits for every
detection, no later engine is invoked at all. -/
theorem C6_cascade_work_narrowing :
    (∀ (env : EngineEnv) (preferred : String) (preds : List OcrDet),
      traceFaithful env (setMissingDigits preds)
        (applyDigitsEngines env preferred preds).2.2) ∧
    (∀ (env : EngineEnv) (preferred : String) (preds : List OcrDet)
      (e1 : String) (rest : List String),
      getEngineOrder preferred = e1 :: rest →
      e1 ∈ digitsEngineNames →
      env.avail e1 = true →
      (∀ i, (env.output e1 i).isEmpty = false) →
      ∀ entry ∈ (applyDigitsEngines env preferred preds).2.2, entry.1 = e1) := by
  constructor
  · intro env preferred preds
    exact cascade_traceFaithful env (getEngineOrder preferred) (setMissingDigits preds)
  · intro env preferred preds e1 rest horder hk ha hout entry hentry
    unfold applyDigitsEngines at hentry
    rw [horder] at hentry
    exact cascade_first_settles env e1 rest (setMissingDigits preds) hk ha hout entry hentry

/-- Witness for C6 at concrete inputs: with both engines available and
the first engine ("easyocr", under the default "auto" preference)
reading "7" for every detection, every invocation in the trace belongs
to "easyocr" (so "tesseract" is never invoked). -/
theorem C6_witness :
    (applyDigitsEngines env0 "auto" preds0).2.2.all (fun en => en.1 == "easyocr") = true := by
  rw [List.all_eq_true]
  intro en hen
  rw [C6_cascade_work_narrowing.2 env0 "auto" preds0 "easyocr" ["tesseract"]
    rfl (by decide) rfl (fun i => rfl) en hen]
  decide

/-! ## Claims C2, C3, C8, C9: the run summary and page isolation -/

/-- The un-rounded code average on the C2 counterexample page. -/
theorem rawAvg_c2 : rawAverageConfidence [c2Page] = 4 / 5 := by
  simp [rawAverageConfidence, c2Page]
  norm_num

/-- The spec-described average on the C2 counterexample page. -/
theorem specAvg_c2 : specAverageConfidence [c2Page] = 9 / 10 := by
  simp [specAverageConfidence, c2Page]
  norm_num

/-- The un-rounded code average on the 3-page example run. -/
theorem rawAvg_example : rawAverageConfidence exampleRun = 9 / 10 := by
  simp [rawAverageConfidence, exampleRun, examplePage]
  norm_num

/-- Counterexample to C2 as stated: on a one-page run with one trusted
detection (confidence 0.9, with a FoliationCheck) and one untrusted
detection (confidence 0.7, no FoliationCheck), the code averages over
ALL detections (0.8), not over the FoliationCheck-bearing ones (0.9). -/
theorem C2_counterexample :
    (summarize 1 [c2Page]).average_confidence = 0.8 ∧
    specAverageConfidence [c2Page] = 0.9 ∧
    (summarize 1 [c2Page]).average_confidence ≠
      pyRound (specAverageConfidence [c2Page]) 3 := by
  have h1 : (summarize 1 [c2Page]).average_confidence = 4 / 5 := by
    rw [show (summarize 1 [c2Page]).average_confidence
        = pyRound (rawAverageConfidence [c2Page]) 3 from rfl, rawAvg_c2]
    exact pyRound_eq_self 800 (by norm_num)
  have h2 : pyRound (specAverageConfidence [c2Page]) 3 = 9 / 10 := by
    rw [specAvg_c2]
    exact pyRound_eq_self 900 (by norm_num)
  refine ⟨by rw [h1]; norm_num, by rw [specAvg_c2]; norm_num, ?_⟩
  rw [h1, h2]
  norm_num

/-- C2 amended: `average_confidence` is the rounded arithmetic mean of
the detection-level confidence of ALL detections across all pages
(0.0 when there are none), whether or not they carry a FoliationCheck;
in the 3-page "1"/"2"/"5" example it equals the mean of the three
detector confidences (0.9 here), not the 0.833 mean of the foliation
confidences. -/
theorem C2_amended :
    (∀ (numPages : ℕ) (results : List PageResult),
      (summarize numPages results).average_confidence =
        pyRound (rawAverageConfidence results) 3) ∧
    (summarize 3 exampleRun).average_confidence = 0.9 := by
  constructor
  · intro numPages results
    rfl
  · rw [show (summarize 3 exampleRun).average_confidence
        = pyRound (rawAverageConfidence exampleRun) 3 from rfl, rawAvg_example,
      pyRound_eq_self 900 (by norm_num)]
    norm_num

/-- Counterexample to C3 as stated: `predict_array` stores a Detection
confidence with three decimals (0.567), which is not equal to its own
2-decimal rounding (0.57) -- Detection confidences are rounded to 3
decimals, not 2. -/
theorem C3_counterexample :
    (ultralyticsDetection rawC3 "d1").confidence = 0.567 ∧
    pyRound ((ultralyticsDetection rawC3 "d1").confidence) 2 = 0.57 ∧
    (ultralyticsDetection rawC3 "d1").confidence ≠
      pyRound ((ultralyticsDetection rawC3 "d1").confidence) 2 := by
  have h1 : (ultralyticsDetection rawC3 "d1").confidence = 0.567 := by
    show pyRound (0.567 : ℚ) 3 = 0.567
    exact pyRound_eq_self 567 (by norm_num)
  have h2 : pyRound ((ultralyticsDetection rawC3 "d1").confidence) 2 = 0.57 := by
    rw [h1]
    unfold pyRound roundHalfEven
    norm_num
  refine ⟨h1, h2, ?_⟩
  rw [h2, h1]
  norm_num

/-- C3 amended: numeric rounding at the output boundary is: Detection
confidence rounded to 3 decimals (both backends), FoliationCheck
confidence rounded to 2 decimals, and the summary average confidence
rounded to 3 decimals. -/
theorem C3_amended :
    (∀ (p : RawPred) (det_id : String),
      (ultralyticsDetection p det_id).confidence = pyRound p.conf 3) ∧
    (∀ (p : RawPred) (det_id : String),
      (roboflowDetection p det_id).confidence = pyRound p.conf 3) ∧
    (∀ (s : String) (n : ℤ),
      (compareFoliation s n).confidence = pyRound (rawFoliationConf s n) 2) ∧
    (∀ (numPages : ℕ) (results : List PageResult),
      (summarize numPages results).average_confidence =
        pyRound (rawAverageConfidence results) 3) := by
  refine ⟨fun p det_id => rfl, fun p det_id => rfl, ?_, fun numPages results => rfl⟩
  intro s n
  rcases h : pyParseInt s with _ | v
  · rw [compareFoliation_nonparse n h, rawFoliationConf_nonparse n h]
    exact (pyRound_eq_self 0 (by norm_num)).symm
  · rw [compareFoliation_parse n v h, rawFoliationConf_parse n v h]
    exact (confOfDiff_round _).symm

/-- C9: `pages_without_match` is `total_pages` minus the count of
individual matching detections (not a count of pages), and on a one-page
run whose page carries two detections that both read the correct folio
it is the negative value -1. -/
theorem C9_pages_without_match :
    (∀ (numPages : ℕ) (results : List PageResult),
      (summarize numPages results).pages_without_match =
        (numPages : ℤ) - detMatchCount results) ∧
    (summarize 1 [c9Page]).pages_without_match = -1 := by
  constructor
  · intro numPages results
    rfl
  · show (1 : ℤ) - _ = -1
    rw [show c9Page = ⟨1, [⟨0.9, some fcExact⟩, ⟨0.95, some fcExact⟩], none⟩ by
      unfold c9Page; rw [compareFoliation_one]]
    rfl

/-- C8: page-failure isolation: every page outcome (success or raised
exception) yields exactly one page entry — an exception becomes an entry
with an `error` field and an empty prediction list — pages after a
failing page are still processed, a summary is always produced, and only
an ingest failure prevents any result from being returned. -/
theorem C8_page_isolation :
    (∀ outs : List (ℤ × Except String (List PredOut)),
      (processRun outs).pages = outs.map processPage ∧
      (processRun outs).pages.length = outs.length ∧
      (processRun outs).summary = summarize outs.length (outs.map processPage)) ∧
    (∀ (pn : ℤ) (e : String), processPage (pn, Except.error e) = ⟨pn, [], some e⟩) ∧
    (∀ (pn : ℤ) (preds : List PredOut),
      processPage (pn, Except.ok preds) = ⟨pn, preds, none⟩) ∧
    (∀ (pre post : List (ℤ × Except String (List PredOut))) (pn : ℤ) (e : String),
      (processRun (pre ++ (pn, Except.error e) :: post)).pages =
        pre.map processPage ++ (⟨pn, [], some e⟩ : PageResult) :: post.map processPage) ∧
    (∀ outs, processPdf (Except.ok outs) = Except.ok (processRun outs)) ∧
    (∀ e : String, processPdf (Except.error e) = Except.error e) := by
  refine ⟨fun outs => ⟨rfl, by simp [processRun], rfl⟩, fun pn e => rfl,
    fun pn preds => rfl, ?_, fun outs => rfl, fun e => rfl⟩
  intro pre post pn e
  simp [processRun, processPage]

end BindPdf
